import Mathlib

/-!
Verification of the client-side state model of the inventory single-page
application (React/TypeScript, Supabase backend).  The definitions below are a
shallow embedding of the code in `src/src/App.tsx` and of the drag-and-drop
variant (`src/unnamed/part_001`).  Quantities are JavaScript numbers that the
UI coerces with `Number(x) || 0`; they are modelled as `Int`.  Lists model
JavaScript arrays; `List.eraseIdx` models both `arr.filter((_, i) => i !== c)`
and `arr.splice(c, 1)` (both remove the element at index `c` and are no-ops
when `c` is out of range).
-/

namespace Inventory

/-- `type Item = { name: string; threshold: number }` from App.tsx. -/
structure Item where
  name : String
  threshold : Int
deriving Repr, DecidableEq

/-- `type InventoryState = { areas; items; quantities }` from App.tsx:
the quantity matrix is indexed items x areas. -/
structure InventoryState where
  areas : List String
  items : List Item
  quantities : List (List Int)
deriving Repr, DecidableEq

/-- Structural well-formedness of an in-memory state: one matrix row per item,
and every row has one entry per area (spec section 3, "Invariant"). -/
def wf (s : InventoryState) : Prop :=
  s.quantities.length = s.items.length ∧ ∀ row ∈ s.quantities, row.length = s.areas.length

instance (s : InventoryState) : Decidable (wf s) := by
  unfold wf; infer_instance

/-! ### Structural operations (App.tsx, Catalog view, lines 289-349) -/

/-- JavaScript `String.prototype.trim`: strip leading and trailing whitespace.
(Modelled over the character list; Lean's own `String.trim` is extensionally
the same here but does not reduce in the kernel.) -/
def jsTrim (s : String) : String :=
  ⟨((s.data.dropWhile Char.isWhitespace).reverse.dropWhile Char.isWhitespace).reverse⟩

/-- JavaScript `String.prototype.toLowerCase` (ASCII case folding suffices for
the comparisons the app makes). -/
def jsToLower (s : String) : String :=
  ⟨s.data.map Char.toLower⟩

/-- `addArea` from App.tsx (lines 289-302): trim the proposed name, reject the
empty name and an exact (case-sensitive, `areas.includes`) duplicate, otherwise
append the name to `areas` and a `0` to every matrix row.  The second component
records whether `persist(ns)` was reached, the third the `alert` message. -/
def addArea (s : InventoryState) (newArea : String) : InventoryState × Bool × Option String :=
  let name := jsTrim newArea
  if name = "" then (s, false, some "Area name is required.")
  else if s.areas.contains name then (s, false, some "Area already exists.")
  else ({ areas := s.areas ++ [name]
          items := s.items
          quantities := s.quantities.map (fun row => row ++ [0]) }, true, none)

/-- `addItem` from App.tsx (lines 304-320): trim, reject the empty name and a
case-insensitive duplicate (`it.name.toLowerCase() === name.toLowerCase()`),
otherwise append `{name, threshold}` and a zero row sized to the area count. -/
def addItem (s : InventoryState) (newItem : String) (newItemTh : Int) :
    InventoryState × Bool × Option String :=
  let name := jsTrim newItem
  if name = "" then (s, false, some "Item name is required.")
  else if s.items.any (fun it => jsToLower it.name == jsToLower name) then
    (s, false, some "Item already exists.")
  else ({ areas := s.areas
          items := s.items ++ [⟨name, newItemTh⟩]
          quantities := s.quantities ++ [List.replicate s.areas.length 0] }, true, none)

/-- The state transition of a confirmed `removeArea(c)` (App.tsx lines 239-254):
`areas.filter((_, i) => i !== c)` and `row.splice(c, 1)` on every row, both of
which are `List.eraseIdx c`. -/
def removeArea (s : InventoryState) (c : Nat) : InventoryState :=
  { areas := s.areas.eraseIdx c
    items := s.items
    quantities := s.quantities.map (fun row => row.eraseIdx c) }

/-- The state transition of a confirmed `removeItem(r)` (App.tsx lines 256-266):
drop item `r` and its whole matrix row. -/
def removeItem (s : InventoryState) (r : Nat) : InventoryState :=
  { areas := s.areas
    items := s.items.eraseIdx r
    quantities := s.quantities.eraseIdx r }

/-! ### Drag-and-drop reorder (part_001, lines 76-93 and 370-389) -/

/-- JavaScript `copy.splice(e, 0, x)`: the insertion position is clamped to the
array length (`insertIdx` alone would drop the element instead). -/
def spliceInsert (l : List α) (e : Nat) (x : α) : List α :=
  l.insertIdx (min e l.length) x

/-- `reorderArray(arr, start, end)` from part_001: remove the element at
`start` and re-insert it at `end`.  The out-of-range `start` case cannot arise
in the app (drag sources are rendered indices); it is totalized as the
identity. -/
def reorderArray (l : List α) (start e : Nat) : List α :=
  match l.get? start with
  | none => l
  | some x => spliceInsert (l.eraseIdx start) e x

/-- `reorderColumns` from part_001: move column `start` to `e` in every row. -/
def reorderColumns (m : List (List Int)) (start e : Nat) : List (List Int) :=
  m.map (fun row => reorderArray row start e)

/-- The state transition of `onDrop` for an area drag (part_001 lines 375-380);
`onDrop` returns early when the destination equals the drag source. -/
def dropArea (s : InventoryState) (src dst : Nat) : InventoryState :=
  if dst = src then s
  else { areas := reorderArray s.areas src dst
         items := s.items
         quantities := reorderColumns s.quantities src dst }

/-- The state transition of `onDrop` for an item drag (part_001 lines 381-387):
`reorderRows` is `reorderArray`, applied to the item list and to the matrix. -/
def dropItem (s : InventoryState) (src dst : Nat) : InventoryState :=
  if dst = src then s
  else { areas := s.areas
         items := reorderArray s.items src dst
         quantities := reorderArray s.quantities src dst }

/-- One user-level structural mutation, for stating the invariant over
arbitrary operation sequences (claim C1). -/
inductive Op where
  | addArea (name : String)
  | addItem (name : String) (th : Int)
  | removeArea (c : Nat)
  | removeItem (r : Nat)
  | reorderAreas (src dst : Nat)
  | reorderItems (src dst : Nat)
deriving Repr, DecidableEq

/-- The in-memory state transition of one operation. -/
def Op.apply (op : Op) (s : InventoryState) : InventoryState :=
  match op with
  | .addArea n => (Inventory.addArea s n).1
  | .addItem n th => (Inventory.addItem s n th).1
  | .removeArea c => Inventory.removeArea s c
  | .removeItem r => Inventory.removeItem s r
  | .reorderAreas src dst => dropArea s src dst
  | .reorderItems src dst => dropItem s src dst

/-- A whole sequence of operations, applied left to right. -/
def applyOps (ops : List Op) (s : InventoryState) : InventoryState :=
  ops.foldl (fun st op => op.apply st) s

/-! ### C1: the structural invariant is preserved by every operation -/

lemma length_eraseIdx_congr {α β : Type _} (l₁ : List α) (l₂ : List β) (c : Nat)
    (h : l₁.length = l₂.length) : (l₁.eraseIdx c).length = (l₂.eraseIdx c).length := by
  by_cases hc : c < l₁.length
  · rw [List.length_eraseIdx_of_lt hc, List.length_eraseIdx_of_lt (h ▸ hc), h]
  · rw [List.eraseIdx_eq_self.mpr (Nat.le_of_not_lt hc),
      List.eraseIdx_eq_self.mpr (h ▸ Nat.le_of_not_lt hc), h]

lemma length_spliceInsert (l : List α) (e : Nat) (x : α) :
    (spliceInsert l e x).length = l.length + 1 := by
  unfold spliceInsert
  exact List.length_insertIdx _ _ (Nat.min_le_right _ _)

lemma length_reorderArray (l : List α) (start e : Nat) :
    (reorderArray l start e).length = l.length := by
  unfold reorderArray
  cases hs : l.get? start with
  | none => rfl
  | some x =>
      have hlt : start < l.length := (List.get?_eq_some.mp hs).1
      rw [length_spliceInsert, List.length_eraseIdx_of_lt hlt]
      omega

lemma length_reorderArray_congr {α β : Type _} (l₁ : List α) (l₂ : List β) (start e : Nat)
    (h : l₁.length = l₂.length) :
    (reorderArray l₁ start e).length = (reorderArray l₂ start e).length := by
  rw [length_reorderArray, length_reorderArray, h]

lemma mem_of_mem_reorderArray {l : List α} {start e : Nat} {a : α}
    (h : a ∈ reorderArray l start e) : a ∈ l := by
  unfold reorderArray at h
  cases hs : l.get? start with
  | none => rw [hs] at h; exact h
  | some x =>
      rw [hs] at h
      unfold spliceInsert at h
      rcases (List.mem_insertIdx (Nat.min_le_right _ _)).mp h with h' | h'
      · exact h' ▸ List.get?_mem hs
      · exact (List.eraseIdx_sublist l start).mem h'

lemma wf_addArea (s : InventoryState) (n : String) (h : wf s) : wf (addArea s n).1 := by
  unfold addArea
  dsimp only
  split
  · exact h
  split
  · exact h
  refine ⟨by simpa using h.1, ?_⟩
  intro row hrow
  simp only [List.mem_map] at hrow
  obtain ⟨r0, hr0, rfl⟩ := hrow
  simp [h.2 r0 hr0]

lemma wf_addItem (s : InventoryState) (n : String) (th : Int) (h : wf s) :
    wf (addItem s n th).1 := by
  unfold addItem
  dsimp only
  split
  · exact h
  split
  · exact h
  refine ⟨by simpa using h.1, ?_⟩
  intro row hrow
  rcases List.mem_append.mp hrow with h' | h'
  · exact h.2 row h'
  · simp only [List.mem_singleton] at h'
    simp [h']

lemma wf_removeArea (s : InventoryState) (c : Nat) (h : wf s) : wf (removeArea s c) := by
  refine ⟨by simpa [removeArea] using h.1, ?_⟩
  intro row hrow
  simp only [removeArea, List.mem_map] at hrow
  obtain ⟨r0, hr0, rfl⟩ := hrow
  exact length_eraseIdx_congr r0 s.areas c (h.2 r0 hr0)

lemma wf_removeItem (s : InventoryState) (r : Nat) (h : wf s) : wf (removeItem s r) := by
  refine ⟨length_eraseIdx_congr _ _ r h.1, ?_⟩
  intro row hrow
  exact h.2 row ((List.eraseIdx_sublist s.quantities r).mem hrow)

lemma wf_dropArea (s : InventoryState) (src dst : Nat) (h : wf s) : wf (dropArea s src dst) := by
  unfold dropArea
  split
  · exact h
  refine ⟨by simpa [reorderColumns] using h.1, ?_⟩
  intro row hrow
  simp only [reorderColumns, List.mem_map] at hrow
  obtain ⟨r0, hr0, rfl⟩ := hrow
  exact length_reorderArray_congr r0 s.areas src dst (h.2 r0 hr0)

lemma wf_dropItem (s : InventoryState) (src dst : Nat) (h : wf s) : wf (dropItem s src dst) := by
  unfold dropItem
  split
  · exact h
  refine ⟨length_reorderArray_congr _ _ src dst h.1, ?_⟩
  intro row hrow
  exact h.2 row (mem_of_mem_reorderArray hrow)

lemma wf_op (op : Op) (s : InventoryState) (h : wf s) : wf (op.apply s) := by
  cases op with
  | addArea n => exact wf_addArea s n h
  | addItem n th => exact wf_addItem s n th h
  | removeArea c => exact wf_removeArea s c h
  | removeItem r => exact wf_removeItem s r h
  | reorderAreas src dst => exact wf_dropArea s src dst h
  | reorderItems src dst => exact wf_dropItem s src dst h

/-- Claim C1: for every well-formed in-memory state and every sequence of the
operations addArea, addItem, removeArea, removeItem and the drag-and-drop
reorders, the resulting state is again well-formed: the quantity matrix has
exactly one row per item and every row has exactly one entry per area. -/
theorem structural_invariant_preserved (ops : List Op) (s : InventoryState) (h : wf s) :
    wf (applyOps ops s) := by
  induction ops generalizing s with
  | nil => exact h
  | cons op rest ih => exact ih (op.apply s) (wf_op op s h)

/-- A concrete run of `structural_invariant_preserved`: the seeded default
state stays well-formed across one operation of every kind. -/
theorem structural_invariant_preserved_witness :
    wf ⟨["Kitchen", "Spa"], [⟨"Broom", 2⟩], [[3, 0]]⟩ ∧
      wf (applyOps
        [Op.addArea "Office", Op.addItem "Towels" 10, Op.reorderAreas 0 2,
         Op.reorderItems 1 0, Op.removeArea 1, Op.removeItem 0]
        ⟨["Kitchen", "Spa"], [⟨"Broom", 2⟩], [[3, 0]]⟩) :=
  ⟨by decide, structural_invariant_preserved _ _ (by decide)⟩

/-! ### C6: validation failures mutate nothing and issue no write -/

/-- Claim C6: `addArea` rejects a name already present under case-sensitive
comparison and `addItem` rejects one already present case-insensitively; every
rejection (duplicate, or empty after trimming) returns with the state
unchanged, no `persist` call, and an alert; and `addArea` accepts a name that
differs from an existing area only by case (the comparison really is
case-sensitive). -/
theorem validation_rejects_without_mutation (s : InventoryState) (na ni : String) (th : Int) :
    ((jsTrim na = "" ∨ s.areas.contains (jsTrim na)) →
      (addArea s na).1 = s ∧ (addArea s na).2.1 = false ∧ (addArea s na).2.2.isSome = true) ∧
    ((jsTrim ni = "" ∨ s.items.any (fun it => jsToLower it.name == jsToLower (jsTrim ni))) →
      (addItem s ni th).1 = s ∧ (addItem s ni th).2.1 = false ∧
        (addItem s ni th).2.2.isSome = true) ∧
    ((jsTrim na ≠ "" ∧ ¬ s.areas.contains (jsTrim na)) →
      (addArea s na).1 = ⟨s.areas ++ [jsTrim na], s.items,
        s.quantities.map (fun row => row ++ [0])⟩ ∧
        (addArea s na).2.1 = true) := by
  refine ⟨?_, ?_, ?_⟩
  · rintro (h | h)
    · simp [addArea, h]
    · by_cases he : jsTrim na = ""
      · simp [addArea, he]
      · rw [addArea]
        rw [if_neg he, if_pos h]
        exact ⟨rfl, rfl, rfl⟩
  · rintro (h | h)
    · simp [addItem, h]
    · by_cases he : jsTrim ni = ""
      · simp [addItem, he]
      · rw [addItem]
        rw [if_neg he, if_pos h]
        exact ⟨rfl, rfl, rfl⟩
  · rintro ⟨h1, h2⟩
    rw [addArea]
    rw [if_neg h1, if_neg h2]
    exact ⟨rfl, rfl⟩

/-- A concrete run of `validation_rejects_without_mutation`: "Kitchen" is an
exact duplicate area (rejected) and "broom" is a case-insensitive duplicate
item (rejected); neither rejection mutates the state or issues a write. -/
theorem validation_rejects_without_mutation_witness :
    ((["Kitchen"] : List String).contains (jsTrim "Kitchen") ∧
      ([⟨"Broom", 2⟩] : List Item).any
        (fun it => jsToLower it.name == jsToLower (jsTrim "broom"))) ∧
    (addArea ⟨["Kitchen"], [⟨"Broom", 2⟩], [[3]]⟩ "Kitchen").1 =
        ⟨["Kitchen"], [⟨"Broom", 2⟩], [[3]]⟩ ∧
    (addArea ⟨["Kitchen"], [⟨"Broom", 2⟩], [[3]]⟩ "Kitchen").2.1 = false ∧
    (addItem ⟨["Kitchen"], [⟨"Broom", 2⟩], [[3]]⟩ "broom" 0).1 =
        ⟨["Kitchen"], [⟨"Broom", 2⟩], [[3]]⟩ ∧
    (addItem ⟨["Kitchen"], [⟨"Broom", 2⟩], [[3]]⟩ "broom" 0).2.1 = false := by
  have h := validation_rejects_without_mutation ⟨["Kitchen"], [⟨"Broom", 2⟩], [[3]]⟩
    "Kitchen" "broom" 0
  have ha := h.1 (Or.inr (by decide))
  have hi := h.2.1 (Or.inr (by decide))
  exact ⟨⟨by decide, by decide⟩, ha.1, ha.2.1, hi.1, hi.2.1⟩

/-! ### C9: `setQtyCell` is frame-exact -/

/-- `setQtyCell` from App.tsx (lines 181-187): deep-copy the matrix and assign
cell `(r, c)`.  (With `r` out of range the JavaScript original would throw;
the app only calls it with rendered indices, and claim C9 assumes them
in range, where `List.set` agrees with the assignment.) -/
def setQtyCell (q : List (List Int)) (r c : Nat) (v : Int) : List (List Int) :=
  q.set r ((q.getD r []).set c v)

/-- `setQtyCell` acts on the full in-memory state through `setQuantities`:
areas and items are not touched. -/
def setQtyCellState (s : InventoryState) (r c : Nat) (v : Int) : InventoryState :=
  { s with quantities := setQtyCell s.quantities r c v }

lemma getD_set_self (l : List α) (i : Nat) (v d : α) (h : i < l.length) :
    (l.set i v).getD i d = v := by
  simp [List.getD, List.getElem?_set_self h]

lemma getD_set_ne (l : List α) (i j : Nat) (v d : α) (h : j ≠ i) :
    (l.set i v).getD j d = l.getD j d := by
  simp [List.getD, List.getElem?_set_ne (fun h' => h h'.symm)]

/-- Claim C9: for in-range `r`, `c`, `setQtyCell(r, c, v)` changes only cell
`(r, c)`: areas, items, the matrix dimensions, and every other cell are
unchanged, and cell `(r, c)` becomes `v`. -/
theorem setQtyCell_frame (s : InventoryState) (r c : Nat) (v : Int)
    (hr : r < s.quantities.length) (hc : c < (s.quantities.getD r []).length) :
    (setQtyCellState s r c v).areas = s.areas ∧
    (setQtyCellState s r c v).items = s.items ∧
    (setQtyCellState s r c v).quantities.length = s.quantities.length ∧
    (∀ r' : Nat, ((setQtyCellState s r c v).quantities.getD r' []).length =
      (s.quantities.getD r' []).length) ∧
    (∀ r' c' : Nat, (r' ≠ r ∨ c' ≠ c) →
      ((setQtyCellState s r c v).quantities.getD r' []).getD c' 0 =
        (s.quantities.getD r' []).getD c' 0) ∧
    ((setQtyCellState s r c v).quantities.getD r []).getD c 0 = v := by
  refine ⟨rfl, rfl, List.length_set _ _ _, ?_, ?_, ?_⟩
  · intro r'
    by_cases h' : r' = r
    · subst h'
      rw [setQtyCellState, setQtyCell]
      dsimp only
      rw [getD_set_self _ _ _ _ hr, List.length_set]
    · rw [setQtyCellState, setQtyCell]
      dsimp only
      rw [getD_set_ne _ _ _ _ _ h']
  · rintro r' c' h'
    rw [setQtyCellState, setQtyCell]
    dsimp only
    by_cases hr' : r' = r
    · subst hr'
      have hc' : c' ≠ c := h'.resolve_left (fun h => h rfl)
      rw [getD_set_self _ _ _ _ hr, getD_set_ne _ _ _ _ _ hc']
    · rw [getD_set_ne _ _ _ _ _ hr']
  · rw [setQtyCellState, setQtyCell]
    dsimp only
    rw [getD_set_self _ _ _ _ hr, getD_set_self _ _ _ _ hc]

/-- A concrete run of `setQtyCell_frame` on the Kitchen/Spa demo state. -/
theorem setQtyCell_frame_witness :
    (0 < ([[3, 0]] : List (List Int)).length ∧
      1 < (([[3, 0]] : List (List Int)).getD 0 []).length) ∧
    ((setQtyCellState ⟨["Kitchen", "Spa"], [⟨"Broom", 2⟩], [[3, 0]]⟩ 0 1 5).quantities.getD 0
        []).getD 1 0 = 5 ∧
    ((setQtyCellState ⟨["Kitchen", "Spa"], [⟨"Broom", 2⟩], [[3, 0]]⟩ 0 1 5).quantities.getD 0
        []).getD 0 0 = 3 :=
  ⟨⟨by decide, by decide⟩,
    (setQtyCell_frame ⟨["Kitchen", "Spa"], [⟨"Broom", 2⟩], [[3, 0]]⟩ 0 1 5 (by decide)
      (by decide)).2.2.2.2.2,
    (setQtyCell_frame ⟨["Kitchen", "Spa"], [⟨"Broom", 2⟩], [[3, 0]]⟩ 0 1 5 (by decide)
      (by decide)).2.2.2.2.1 0 0 (Or.inr (by decide))⟩

/-! ### C8: removeItem confirmation surfaces the row total (part_001 variant) -/

/-- The row total computed inside `removeItem` of part_001 (line 251):
`(quantities[r] || []).reduce((a, b) => a + (Number(b) || 0), 0)`.  On the
`number[][]` matrix the `Number(b) || 0` coercion is the identity
(`Number(0) || 0` is `0`). -/
def rowTotalInt (q : List (List Int)) (r : Nat) : Int :=
  (q.getD r []).foldl (fun a b => a + b) 0

/-- The `confirm` message built by `removeItem` of part_001 (lines 252-259):
with a positive row total the total is interpolated into the message,
otherwise a plain delete prompt is shown. -/
def removeItemMsg (s : InventoryState) (r : Nat) : String :=
  let rowTotal := rowTotalInt s.quantities r
  if rowTotal > 0 then
    "Item \"" ++ (s.items.getD r ⟨"", 0⟩).name ++ "\" has " ++ toString rowTotal ++
      " units across areas.\nAre you sure you want to delete it?" ++
      " Quantities for this item will be discarded."
  else
    "Delete item \"" ++ (s.items.getD r ⟨"", 0⟩).name ++ "\"?"

/-- Claim C8: when an item's row total is nonzero (positive), the confirmation
message of the part_001 `removeItem` contains that total; and a confirmed
removal of the only item leaves both the item list and the matrix empty. -/
theorem removeItem_total_in_confirm_and_empties (s : InventoryState) (r : Nat)
    (h : rowTotalInt s.quantities r > 0) :
    (∃ pre suf, removeItemMsg s r = pre ++ toString (rowTotalInt s.quantities r) ++ suf) ∧
    (∀ s' : InventoryState, wf s' → s'.items.length = 1 →
      (removeItem s' 0).items = [] ∧ (removeItem s' 0).quantities = []) := by
  constructor
  · refine ⟨"Item \"" ++ (s.items.getD r ⟨"", 0⟩).name ++ "\" has ",
      " units across areas.\nAre you sure you want to delete it?" ++
        " Quantities for this item will be discarded.", ?_⟩
    rw [removeItemMsg]
    rw [if_pos h]
    rw [String.append_assoc]
  · intro s' hwf hone
    have hq : s'.quantities.length = 1 := by rw [hwf.1, hone]
    obtain ⟨it, hit⟩ := List.length_eq_one.mp hone
    obtain ⟨row, hrow⟩ := List.length_eq_one.mp hq
    constructor
    · rw [removeItem]
      rw [hit]
      rfl
    · rw [removeItem]
      rw [hrow]
      rfl

/-- A concrete run of `removeItem_total_in_confirm_and_empties`: removing
"Broom" with row total 8 yields a confirmation containing "8", and removing
the only item empties both lists. -/
theorem removeItem_total_in_confirm_and_empties_witness :
    rowTotalInt ([[3, 5]] : List (List Int)) 0 > 0 ∧
    ((∃ pre suf, removeItemMsg ⟨["Kitchen", "Spa"], [⟨"Broom", 2⟩], [[3, 5]]⟩ 0 =
        pre ++ toString (rowTotalInt ([[3, 5]] : List (List Int)) 0) ++ suf) ∧
      (∀ s' : InventoryState, wf s' → s'.items.length = 1 →
        (removeItem s' 0).items = [] ∧ (removeItem s' 0).quantities = [])) :=
  ⟨by decide,
    removeItem_total_in_confirm_and_empties ⟨["Kitchen", "Spa"], [⟨"Broom", 2⟩], [[3, 5]]⟩ 0
      (by decide)⟩

/-! ### C10: totals are total functions and grand = sum of column totals -/

/-- A JavaScript value sitting in a quantity cell: a number, or anything whose
`Number` coercion is `NaN` (a missing entry of a ragged row reads as
`undefined` and also coerces to 0 through `Number(x) || 0`). -/
inductive Cell where
  | num (n : Int)
  | bad
deriving Repr, DecidableEq

/-- `Number(x) || 0` as applied by the totals code: numbers pass through
(`Number(0) || 0` is `0`), anything non-numeric becomes 0. -/
def cellNum : Cell → Int
  | .num n => n
  | .bad => 0

/-- `colTotals` body for one column `c` (App.tsx lines 149-155):
`quantities.reduce((a, row) => a + (Number(row?.[c]) || 0), 0)`; a row without
an entry at `c` reads as `undefined` and contributes 0. -/
def colTotal (q : List (List Cell)) (c : Nat) : Int :=
  q.foldl (fun a row => a + cellNum (row.getD c .bad)) 0

/-- `colTotals` (one entry per area: `areas.map((_, c) => ...)`). -/
def colTotals (areasLen : Nat) (q : List (List Cell)) : List Int :=
  (List.range areasLen).map (colTotal q)

/-- `rowTotals` body for one row `r` (App.tsx lines 156-162):
`(quantities[r] || []).reduce((a, b) => a + (Number(b) || 0), 0)`. -/
def rowTotal (q : List (List Cell)) (r : Nat) : Int :=
  (q.getD r []).foldl (fun a b => a + cellNum b) 0

/-- `rowTotals` (one entry per item). -/
def rowTotals (itemsLen : Nat) (q : List (List Cell)) : List Int :=
  (List.range itemsLen).map (rowTotal q)

/-- `grand` (App.tsx line 163): `colTotals.reduce((a, b) => a + b, 0)`. -/
def grand (areasLen : Nat) (q : List (List Cell)) : Int :=
  (colTotals areasLen q).foldl (fun a b => a + b) 0

/-- The contribution of one row to column `c`: its cell when present and
numeric, else 0. -/
def colContrib (c : Nat) (row : List Cell) : Int :=
  match row.get? c with
  | some (.num n) => n
  | _ => 0

lemma foldl_add_eq_sum (l : List α) (f : α → Int) (a : Int) :
    l.foldl (fun acc x => acc + f x) a = a + (l.map f).sum := by
  induction l generalizing a with
  | nil => simp
  | cons x xs ih => simp [ih, add_assoc]

lemma cellNum_getD_eq_colContrib (row : List Cell) (c : Nat) :
    cellNum (row.getD c .bad) = colContrib c row := by
  rw [colContrib, List.getD]
  cases h : row.get? c with
  | none => simp [List.getD, h, cellNum]
  | some x => cases x <;> simp [List.getD, h, cellNum]

/-- Claim C10: for every quantities matrix — ragged rows and non-numeric cells
included — the column, row and grand totals are total functions; every
missing or non-numeric cell contributes 0 (the column total is the sum of the
per-row contributions `colContrib`, which is 0 exactly on missing and
non-numeric cells, and likewise for rows); and the grand total equals the sum
of the column totals. -/
theorem totals_total_and_grand_eq_sum_cols (q : List (List Cell)) (areasLen itemsLen : Nat) :
    (∀ c : Nat, colTotal q c = (q.map (colContrib c)).sum) ∧
    (∀ r : Nat, rowTotal q r = ((q.getD r []).map cellNum).sum) ∧
    (∀ row ∈ q, ∀ c : Nat, row.length ≤ c → colContrib c row = 0) ∧
    (∀ (c : Nat) (row : List Cell), (∀ n : Int, row.get? c ≠ some (Cell.num n)) →
      colContrib c row = 0) ∧
    (colTotals areasLen q).length = areasLen ∧
    (rowTotals itemsLen q).length = itemsLen ∧
    grand areasLen q = (colTotals areasLen q).sum := by
  refine ⟨?_, ?_, ?_, ?_, ?_, ?_, ?_⟩
  · intro c
    rw [colTotal]
    rw [foldl_add_eq_sum q (fun row => cellNum (row.getD c .bad)) 0]
    simp only [cellNum_getD_eq_colContrib]
    simp
  · intro r
    rw [rowTotal]
    rw [foldl_add_eq_sum (q.getD r []) cellNum 0]
    simp
  · intro row _ c hc
    rw [colContrib]
    rw [List.get?_eq_none.mpr hc]
  · intro c row hrow
    rw [colContrib]
    cases hg : row.get? c with
    | none => rfl
    | some x =>
        cases x with
        | num n => exact absurd hg (hrow n)
        | bad => rfl
  · simp [colTotals]
  · simp [rowTotals]
  · rw [grand, List.sum_eq_foldl]

/-! ### C5: persistence of matrix quantity edits

The code has no debounce timer at all (no `setTimeout` anywhere): a matrix
cell's `onChange` only updates in-memory state, and its `onBlur` calls
`persist` with a copy of the current state (App.tsx lines 513-535). -/

/-- A user event on the matrix view: typing into a quantity cell
(`onChange`, which updates memory only) or leaving the cell (`onBlur`,
which calls `persist` with the current state). -/
inductive MatrixEvent where
  | change (r c : Nat) (v : Int)
  | blur
deriving Repr, DecidableEq

/-- The matrix edit session: current in-memory state plus the sequence of
remote writes (`saveState` payloads) issued so far. -/
structure EditSession where
  state : InventoryState
  writes : List InventoryState
deriving Repr, DecidableEq

/-- One step of the matrix view: `onChange` assigns the cell in a deep copy
(identical to `setQtyCell`), `onBlur` persists the current full state. -/
def stepMatrix (es : EditSession) (ev : MatrixEvent) : EditSession :=
  match ev with
  | .change r c v => { es with state := setQtyCellState es.state r c v }
  | .blur => { es with writes := es.writes ++ [es.state] }

/-- Run a matrix edit session from state `s0` with no write issued yet. -/
def runMatrix (s0 : InventoryState) (evs : List MatrixEvent) : EditSession :=
  evs.foldl stepMatrix ⟨s0, []⟩

/-- Apply a list of `(r, c, v)` cell edits to the in-memory state. -/
def applyChanges (s : InventoryState) (edits : List (Nat × Nat × Int)) : InventoryState :=
  edits.foldl (fun st e => setQtyCellState st e.1 e.2.1 e.2.2) s

/-- Claim C5 as stated is false: there is no debounce window, and two rapid
quantity edits to different cells (moving focus between them fires `blur` on
the first) issue two remote writes, not exactly one. -/
theorem debounce_coalescing_counterexample :
    (runMatrix ⟨["Kitchen", "Spa"], [⟨"Broom", 2⟩], [[3, 0]]⟩
      [MatrixEvent.change 0 0 5, MatrixEvent.blur,
       MatrixEvent.change 0 1 7, MatrixEvent.blur]).writes.length = 2 ∧ (2 : Nat) ≠ 1 := by
  constructor
  · rfl
  · decide

lemma foldl_stepMatrix_changes (edits : List (Nat × Nat × Int)) (s : InventoryState)
    (w : List InventoryState) :
    (edits.map (fun e => MatrixEvent.change e.1 e.2.1 e.2.2)).foldl stepMatrix ⟨s, w⟩ =
      ⟨applyChanges s edits, w⟩ := by
  induction edits generalizing s with
  | nil => rfl
  | cons e rest ih =>
      simp only [List.map_cons, List.foldl_cons, applyChanges, stepMatrix]
      exact ih (setQtyCellState s e.1 e.2.1 e.2.2)

/-- Claim C5 amended: quantity edits are persisted on cell blur, not by a
debounce timer.  A sequence of `onChange` edits updates memory only and issues
no remote write; the single `onBlur` closing the sequence issues exactly one
write, whose payload is the state after the final edit. -/
theorem blur_persists_final_state (s0 : InventoryState) (edits : List (Nat × Nat × Int)) :
    (runMatrix s0 (edits.map (fun e => MatrixEvent.change e.1 e.2.1 e.2.2))).writes = [] ∧
    (runMatrix s0 (edits.map (fun e => MatrixEvent.change e.1 e.2.1 e.2.2) ++
        [MatrixEvent.blur])).writes = [applyChanges s0 edits] := by
  constructor
  · rw [runMatrix, foldl_stepMatrix_changes]
  · rw [runMatrix, List.foldl_append, foldl_stepMatrix_changes]
    rfl

/-! ### C4: the startup fallback chain -/

/-- The hard-coded seed from the initial-load effect (App.tsx lines 106-118). -/
def defaultSeed : InventoryState :=
  { areas := ["Kitchen", "Spa", "Front desk", "Office"]
    items := [⟨"Broom", 2⟩, ⟨"Towels", 10⟩, ⟨"Pencils", 5⟩]
    quantities := [[3, 5, 0, 0], [20, 40, 0, 0], [0, 0, 0, 15]] }

/-- Outcome of the startup load: the state adopted in memory, and whether a
best-effort `saveState(seed)` was attempted. -/
structure LoadOut where
  adopted : InventoryState
  seedPersistAttempted : Bool
deriving Repr, DecidableEq

/-- The initial-load effect from App.tsx (lines 96-130): `loadState()` returns
the remote document or `null` (both on a missing row and on a read error), the
result is adopted if present, otherwise the hard-coded seed is adopted and a
best-effort `saveState(seed)` is attempted.  There is no other input: the code
reads no local cache. -/
def initialLoad (remote : Option InventoryState) : LoadOut :=
  match remote with
  | some s => ⟨s, false⟩
  | none => ⟨defaultSeed, true⟩

/-- The loader as the spec's section 4.1 words it, for comparison with the
code's `initialLoad`: a three-tier chain remote → local cache → hard default,
where `cache` is the Local Cache Store contents when structurally valid. -/
def initialLoadClaimed (remote cache : Option InventoryState) : LoadOut :=
  match remote with
  | some s => ⟨s, false⟩
  | none =>
      match cache with
      | some c => ⟨c, false⟩
      | none => ⟨defaultSeed, true⟩

/-- Claim C4 as stated is false: with the remote read empty and a structurally
valid cached state present, the spec's three-tier loader adopts the cached
state, but the code adopts the hard-coded seed — the code never consults a
local cache (its loader does not even take one as input). -/
theorem load_fallback_counterexample :
    (initialLoad none).adopted = defaultSeed ∧
    (initialLoadClaimed none (some ⟨["Cached"], [], []⟩)).adopted = ⟨["Cached"], [], []⟩ ∧
    (⟨["Cached"], [], []⟩ : InventoryState) ≠ defaultSeed := by
  refine ⟨rfl, rfl, by decide⟩

/-- Claim C4 amended: the fallback chain has two tiers, remote → hard default.
A present remote document is adopted as-is with no seeding; a missing or
failed remote read adopts the hard-coded default and attempts a best-effort
persist of it. -/
theorem load_two_tier (remote : Option InventoryState) :
    (∀ s : InventoryState, remote = some s → initialLoad remote = ⟨s, false⟩) ∧
    (remote = none → initialLoad remote = ⟨defaultSeed, true⟩) := by
  constructor
  · intro s h
    subst h
    rfl
  · intro h
    subst h
    rfl

/-- A concrete run of `load_two_tier` on both outcomes of the remote read. -/
theorem load_two_tier_witness :
    initialLoad (some ⟨["Kitchen"], [], []⟩) = ⟨⟨["Kitchen"], [], []⟩, false⟩ ∧
    initialLoad none = ⟨defaultSeed, true⟩ :=
  ⟨(load_two_tier (some ⟨["Kitchen"], [], []⟩)).1 _ rfl, (load_two_tier none).2 rfl⟩

/-! ### C2 / C3: the area save-and-record flow (App.tsx lines 189-225) -/

/-- `type AreaRecord` from App.tsx: one row of the `area_inventories` table.
`id` and `created_at` are server-assigned; creation timestamps are modelled as
a monotone counter (the server clock only moves forward). -/
structure AreaRecord where
  id : Nat
  area_name : String
  area_index : Nat
  inventory_date : String
  items : List (String × Int)
  created_at : Nat
deriving Repr, DecidableEq

/-- The remote Supabase tables the flow touches: the single `inventory_state`
document and the append-only `area_inventories` table. -/
structure RemoteDB where
  stateDoc : Option InventoryState
  history : List AreaRecord
deriving Repr, DecidableEq

/-- `insertAreaRecord` (App.tsx lines 51-59) plus the server side: append one
row, with `id` and `created_at` assigned from the monotone counter. -/
def insertAreaRecordDb (db : RemoteDB) (aname : String) (aidx : Nat) (d : String)
    (payload : List (String × Int)) : RemoteDB :=
  { db with history := db.history ++
      [⟨db.history.length, aname, aidx, d, payload, db.history.length⟩] }

/-- Server timestamps increase with insertion position. -/
def histWF (db : RemoteDB) : Prop :=
  ∀ (i : Nat) (h : i < db.history.length), (db.history[i]).created_at = i

/-- `fetchAreaRecords(20)` (App.tsx lines 61-69): order by `created_at`
descending, limit 20.  With timestamps equal to insertion position the
descending order is the reversed insertion order (proved in
`sorted_reverse_take`). -/
def fetchAreaRecords (db : RemoteDB) : List AreaRecord :=
  db.history.reverse.take 20

/-- The history payload built in `saveAreaInventory` (App.tsx lines 204-207):
`items.map((it, r) => ({name: it.name, qty: Number(quantities[r]?.[areaIdx] ?? 0)}))`. -/
def savePayload (s : InventoryState) (c : Nat) : List (String × Int) :=
  s.items.enum.map (fun p => (p.2.name, (s.quantities.getD p.1 []).getD c 0))

/-- The inputs of one `saveAreaInventory` call: in-memory state, selected area
index, chosen date, the remote tables, the in-memory records list, and one
failure flag per remote call the flow makes. -/
structure SaveCtx where
  state : InventoryState
  areaIdx : Nat
  dateStr : String
  db : RemoteDB
  records : List AreaRecord
  saveStateFails : Bool
  insertFails : Bool
  fetchFails : Bool
deriving Repr, DecidableEq

/-- What one `saveAreaInventory` call leaves behind: in-memory state, remote
tables, in-memory records, the `alert` shown, and how many history inserts
were attempted. -/
structure SaveOut where
  state : InventoryState
  db : RemoteDB
  records : List AreaRecord
  alertMsg : String
  insertsAttempted : Nat
deriving Repr, DecidableEq

/-- `saveAreaInventory` from App.tsx (lines 189-225): guard on a truthy
`areas[areaIdx]` and a non-empty date, then (1) `saveState` the full state —
on failure the catch block alerts and nothing further runs; (2) insert the
area record — on failure the same catch alerts; (3) `refreshRecords`, which
catches its own errors, so a fetch failure still reaches the success alert.
The in-memory state is never touched. -/
def saveAreaInventory (ctx : SaveCtx) : SaveOut :=
  match ctx.state.areas.get? ctx.areaIdx with
  | none => ⟨ctx.state, ctx.db, ctx.records, "Choose an area.", 0⟩
  | some aname =>
    if aname = "" then ⟨ctx.state, ctx.db, ctx.records, "Choose an area.", 0⟩
    else if ctx.dateStr = "" then ⟨ctx.state, ctx.db, ctx.records, "Pick a date.", 0⟩
    else if ctx.saveStateFails then
      ⟨ctx.state, ctx.db, ctx.records, "Could not save. Check Supabase credentials/RLS.", 0⟩
    else
      let db1 : RemoteDB := ⟨some ctx.state, ctx.db.history⟩
      if ctx.insertFails then
        ⟨ctx.state, db1, ctx.records, "Could not save. Check Supabase credentials/RLS.", 1⟩
      else
        let db2 := insertAreaRecordDb db1 aname ctx.areaIdx ctx.dateStr
          (savePayload ctx.state ctx.areaIdx)
        if ctx.fetchFails then
          ⟨ctx.state, db2, ctx.records,
            "Saved inventory for \"" ++ aname ++ "\" (date: " ++ ctx.dateStr ++ ").", 1⟩
        else
          ⟨ctx.state, db2, fetchAreaRecords db2,
            "Saved inventory for \"" ++ aname ++ "\" (date: " ++ ctx.dateStr ++ ").", 1⟩

lemma savePayload_length (s : InventoryState) (c : Nat) :
    (savePayload s c).length = s.items.length := by
  simp [savePayload, List.enum_length]

lemma savePayload_get (s : InventoryState) (c r : Nat) (hr : r < s.items.length) :
    (savePayload s c).get? r =
      some (((s.items.get? r).getD ⟨"", 0⟩).name, (s.quantities.getD r []).getD c 0) := by
  have hin : r < s.items.enum.length := by simpa [List.enum_length] using hr
  rw [savePayload, List.get?_eq_getElem?, List.getElem?_map, List.getElem?_eq_getElem hin]
  simp [List.getElem_enum, List.get?_eq_getElem?, List.getElem?_eq_getElem hr]

lemma sorted_reverse_take (db : RemoteDB) (hwf : histWF db) (n : Nat) :
    List.Sorted (fun a b : AreaRecord => b.created_at ≤ a.created_at)
      (db.history.reverse.take n) := by
  apply List.Pairwise.sublist (List.take_sublist n db.history.reverse)
  refine List.pairwise_iff_getElem.mpr ?_
  intro i j hi hj hij
  have hi' : i < db.history.length := by simpa using hi
  have hj' : j < db.history.length := by simpa using hj
  simp only [List.getElem_reverse]
  rw [hwf (db.history.length - 1 - i) (by omega), hwf (db.history.length - 1 - j) (by omega)]
  omega

lemma created_at_lt_of_mem {db : RemoteDB} {b : AreaRecord} (hwf : histWF db)
    (hb : b ∈ db.history) : b.created_at < db.history.length := by
  obtain ⟨i, hi, rfl⟩ := List.mem_iff_getElem.mp hb
  rw [hwf i hi]
  exact hi

/-- Claim C2: with the selected index naming an existing, non-empty area name,
a non-empty date, and all three remote calls succeeding, `saveAreaInventory`
appends exactly one history record carrying the selected area's name, the
selected index, the chosen date, and one `(name, qty)` pair per item taken
from that item's cell in the selected column of the just-persisted matrix
(missing cells as 0); and the refreshed in-memory records list is descending
by creation time with the new record first. -/
theorem saveAreaInventory_success_record (ctx : SaveCtx) (aname : String)
    (hget : ctx.state.areas.get? ctx.areaIdx = some aname)
    (hne : aname ≠ "") (hdate : ctx.dateStr ≠ "")
    (hsf : ctx.saveStateFails = false) (hif : ctx.insertFails = false)
    (hff : ctx.fetchFails = false) (hwf : histWF ctx.db) :
    (saveAreaInventory ctx).db.history = ctx.db.history ++
      [⟨ctx.db.history.length, aname, ctx.areaIdx, ctx.dateStr,
        savePayload ctx.state ctx.areaIdx, ctx.db.history.length⟩] ∧
    (saveAreaInventory ctx).db.stateDoc = some ctx.state ∧
    (saveAreaInventory ctx).state = ctx.state ∧
    (saveAreaInventory ctx).insertsAttempted = 1 ∧
    (savePayload ctx.state ctx.areaIdx).length = ctx.state.items.length ∧
    (∀ r : Nat, r < ctx.state.items.length →
      (savePayload ctx.state ctx.areaIdx).get? r =
        some (((ctx.state.items.get? r).getD ⟨"", 0⟩).name,
          (ctx.state.quantities.getD r []).getD ctx.areaIdx 0)) ∧
    (saveAreaInventory ctx).records =
      ⟨ctx.db.history.length, aname, ctx.areaIdx, ctx.dateStr,
        savePayload ctx.state ctx.areaIdx, ctx.db.history.length⟩ ::
        ctx.db.history.reverse.take 19 ∧
    List.Sorted (fun a b : AreaRecord => b.created_at ≤ a.created_at)
      (saveAreaInventory ctx).records := by
  have hout : saveAreaInventory ctx =
      ⟨ctx.state,
        insertAreaRecordDb ⟨some ctx.state, ctx.db.history⟩ aname ctx.areaIdx ctx.dateStr
          (savePayload ctx.state ctx.areaIdx),
        fetchAreaRecords (insertAreaRecordDb ⟨some ctx.state, ctx.db.history⟩ aname
          ctx.areaIdx ctx.dateStr (savePayload ctx.state ctx.areaIdx)),
        "Saved inventory for \"" ++ aname ++ "\" (date: " ++ ctx.dateStr ++ ").", 1⟩ := by
    simp only [saveAreaInventory, hget]
    rw [if_neg hne, if_neg hdate, hsf, hif, hff]
    simp
  have hfetch : fetchAreaRecords (insertAreaRecordDb ⟨some ctx.state, ctx.db.history⟩ aname
      ctx.areaIdx ctx.dateStr (savePayload ctx.state ctx.areaIdx)) =
      ⟨ctx.db.history.length, aname, ctx.areaIdx, ctx.dateStr,
        savePayload ctx.state ctx.areaIdx, ctx.db.history.length⟩ ::
        ctx.db.history.reverse.take 19 := by
    rw [fetchAreaRecords, insertAreaRecordDb]
    simp
  refine ⟨?_, ?_, ?_, ?_, savePayload_length _ _, ?_, ?_, ?_⟩
  · rw [hout]; rfl
  · rw [hout]; rfl
  · rw [hout]
  · rw [hout]
  · intro r hr
    exact savePayload_get ctx.state ctx.areaIdx r hr
  · rw [hout]
    exact hfetch
  · rw [hout]
    dsimp only
    rw [hfetch]
    rw [List.sorted_cons]
    constructor
    · intro b hb
      have hb' : b ∈ ctx.db.history := by
        have := (List.take_sublist 19 ctx.db.history.reverse).mem hb
        simpa using this
      exact Nat.le_of_lt (created_at_lt_of_mem hwf hb')
    · have h19 : histWF ⟨ctx.db.stateDoc, ctx.db.history⟩ := hwf
      exact sorted_reverse_take ctx.db hwf 19

/-- A concrete run of `saveAreaInventory_success_record`: save "Kitchen" on
date "2024-01-15" from matrix `[[3, 5]]`; the record `(id 0, "Kitchen",
index 0, "2024-01-15", [("Broom", 3)])` is appended and heads the refreshed
records list. -/
theorem saveAreaInventory_success_record_witness :
    ((⟨⟨["Kitchen", "Spa"], [⟨"Broom", 2⟩], [[3, 5]]⟩, 0, "2024-01-15", ⟨none, []⟩, [],
        false, false, false⟩ : SaveCtx).state.areas.get? 0 = some "Kitchen" ∧
      ("Kitchen" : String) ≠ "" ∧ ("2024-01-15" : String) ≠ "") ∧
    (saveAreaInventory ⟨⟨["Kitchen", "Spa"], [⟨"Broom", 2⟩], [[3, 5]]⟩, 0, "2024-01-15",
        ⟨none, []⟩, [], false, false, false⟩).db.history =
      [] ++ [⟨0, "Kitchen", 0, "2024-01-15",
        savePayload ⟨["Kitchen", "Spa"], [⟨"Broom", 2⟩], [[3, 5]]⟩ 0, 0⟩] ∧
    (saveAreaInventory ⟨⟨["Kitchen", "Spa"], [⟨"Broom", 2⟩], [[3, 5]]⟩, 0, "2024-01-15",
        ⟨none, []⟩, [], false, false, false⟩).records =
      ⟨0, "Kitchen", 0, "2024-01-15",
        savePayload ⟨["Kitchen", "Spa"], [⟨"Broom", 2⟩], [[3, 5]]⟩ 0, 0⟩ ::
        ([] : List AreaRecord).reverse.take 19 := by
  have h := saveAreaInventory_success_record
    ⟨⟨["Kitchen", "Spa"], [⟨"Broom", 2⟩], [[3, 5]]⟩, 0, "2024-01-15", ⟨none, []⟩, [],
      false, false, false⟩ "Kitchen" rfl (by decide) (by decide) rfl rfl rfl
    (by intro i hi; simp at hi)
  exact ⟨⟨rfl, by decide, by decide⟩, h.1, h.2.2.2.2.2.2.1⟩

/-- Claim C3: when persisting the full state fails, `saveAreaInventory` aborts
before the history insert (zero inserts attempted, remote tables untouched),
alerts the failure, and leaves the in-memory state and records exactly as they
were — no rollback, no other modification. -/
theorem saveAreaInventory_statewrite_failure (ctx : SaveCtx) (aname : String)
    (hget : ctx.state.areas.get? ctx.areaIdx = some aname)
    (hne : aname ≠ "") (hdate : ctx.dateStr ≠ "")
    (hsf : ctx.saveStateFails = true) :
    saveAreaInventory ctx = ⟨ctx.state, ctx.db, ctx.records,
      "Could not save. Check Supabase credentials/RLS.", 0⟩ := by
  simp only [saveAreaInventory, hget]
  rw [if_neg hne, if_neg hdate, hsf]
  simp

/-- A concrete run of `saveAreaInventory_statewrite_failure`: with the remote
state write failing, nothing changes and no insert is attempted. -/
theorem saveAreaInventory_statewrite_failure_witness :
    saveAreaInventory ⟨⟨["Kitchen", "Spa"], [⟨"Broom", 2⟩], [[3, 5]]⟩, 0, "2024-01-15",
        ⟨none, []⟩, [], true, false, false⟩ =
      ⟨⟨["Kitchen", "Spa"], [⟨"Broom", 2⟩], [[3, 5]]⟩, ⟨none, []⟩, [],
        "Could not save. Check Supabase credentials/RLS.", 0⟩ :=
  saveAreaInventory_statewrite_failure
    ⟨⟨["Kitchen", "Spa"], [⟨"Broom", 2⟩], [[3, 5]]⟩, 0, "2024-01-15", ⟨none, []⟩, [],
      true, false, false⟩ "Kitchen" rfl (by decide) (by decide) rfl

/-! ### C7: drag-and-drop reorder preserves lookup by name -/

/-- The quantity the UI associates with item `x` and area `y` by name: locate
the item's matrix row by item name, then the entry in it by area name (each
label list is paired with the matrix positionally, as the views render it). -/
def qtyByName (s : InventoryState) (x y : String) : Option Int :=
  match ((s.items.map Item.name).zip s.quantities).find? (fun p => p.1 == x) with
  | none => none
  | some p =>
      match (s.areas.zip p.2).find? (fun q => q.1 == y) with
      | none => none
      | some q => some q.2

lemma map_eraseIdx (f : α → β) (l : List α) (i : Nat) :
    (l.eraseIdx i).map f = (l.map f).eraseIdx i := by
  induction l generalizing i with
  | nil => rfl
  | cons a as ih =>
      cases i with
      | zero => rfl
      | succ n => simp [List.eraseIdx_cons_succ, ih]

lemma map_insertIdx (f : α → β) (l : List α) (n : Nat) (a : α) (h : n ≤ l.length) :
    (l.insertIdx n a).map f = (l.map f).insertIdx n (f a) := by
  induction l generalizing n with
  | nil =>
      cases n with
      | zero => rfl
      | succ m => simp at h
  | cons b bs ih =>
      cases n with
      | zero => rfl
      | succ m =>
          simp only [List.insertIdx_succ_cons, List.map_cons]
          rw [ih m (by simpa using h)]

lemma zip_eraseIdx {α β : Type _} (l₁ : List α) (l₂ : List β) (i : Nat)
    (h : l₁.length = l₂.length) :
    (l₁.zip l₂).eraseIdx i = (l₁.eraseIdx i).zip (l₂.eraseIdx i) := by
  induction l₁ generalizing l₂ i with
  | nil => cases l₂ <;> rfl
  | cons a as ih =>
      cases l₂ with
      | nil => simp at h
      | cons b bs =>
          cases i with
          | zero => rfl
          | succ n =>
              simp only [List.zip_cons_cons, List.eraseIdx_cons_succ]
              rw [ih bs n (by simpa using h)]

lemma zip_insertIdx {α β : Type _} (l₁ : List α) (l₂ : List β) (n : Nat) (x : α) (y : β)
    (h : l₁.length = l₂.length) (hn : n ≤ l₁.length) :
    (l₁.zip l₂).insertIdx n (x, y) = (l₁.insertIdx n x).zip (l₂.insertIdx n y) := by
  induction l₁ generalizing l₂ n with
  | nil =>
      cases l₂ with
      | nil =>
          cases n with
          | zero => rfl
          | succ m => simp at hn
      | cons b bs => simp at h
  | cons a as ih =>
      cases l₂ with
      | nil => simp at h
      | cons b bs =>
          cases n with
          | zero => rfl
          | succ m =>
              simp only [List.zip_cons_cons, List.insertIdx_succ_cons]
              rw [ih bs m (by simpa using h) (by simpa using hn)]

lemma reorderArray_zip {α β : Type _} (l₁ : List α) (l₂ : List β) (j k : Nat)
    (h : l₁.length = l₂.length) :
    reorderArray (l₁.zip l₂) j k = (reorderArray l₁ j k).zip (reorderArray l₂ j k) := by
  unfold reorderArray
  cases h₁ : l₁.get? j with
  | none =>
      have hj : l₁.length ≤ j := List.get?_eq_none.mp h₁
      have h₂ : l₂.get? j = none := List.get?_eq_none.mpr (h ▸ hj)
      have hz : (l₁.zip l₂).get? j = none := List.get?_eq_none.mpr (by
        rw [List.length_zip]; omega)
      rw [h₂, hz]
  | some x =>
      have hj : j < l₁.length := (List.get?_eq_some.mp h₁).1
      have hj₂ : j < l₂.length := h ▸ hj
      have hx : l₁[j] = x := by
        rw [List.get?_eq_getElem?, List.getElem?_eq_getElem hj] at h₁
        exact Option.some.inj h₁
      have h₂ : l₂.get? j = some l₂[j] := by
        rw [List.get?_eq_getElem?, List.getElem?_eq_getElem hj₂]
      have hz : (l₁.zip l₂).get? j = some (x, l₂[j]) := by
        have hjz : j < (l₁.zip l₂).length := by rw [List.length_zip]; omega
        rw [List.get?_eq_getElem?, List.getElem?_eq_getElem hjz, List.getElem_zip, hx]
      rw [h₂, hz]
      rw [zip_eraseIdx l₁ l₂ j h]
      unfold spliceInsert
      have he : (l₁.eraseIdx j).length = (l₂.eraseIdx j).length := length_eraseIdx_congr _ _ _ h
      have hzl : ((l₁.eraseIdx j).zip (l₂.eraseIdx j)).length = (l₁.eraseIdx j).length := by
        rw [List.length_zip]; omega
      rw [hzl, ← he]
      exact zip_insertIdx _ _ _ x l₂[j] he (Nat.min_le_right _ _)

lemma reorderArray_map (f : α → β) (l : List α) (j k : Nat) :
    (reorderArray l j k).map f = reorderArray (l.map f) j k := by
  unfold reorderArray
  cases h : l.get? j with
  | none =>
      have h' : (l.map f).get? j = none := by
        rw [List.get?_eq_getElem?, List.getElem?_map]
        rw [List.get?_eq_getElem?] at h
        rw [h]
        rfl
      rw [h']
  | some x =>
      have h' : (l.map f).get? j = some (f x) := by
        rw [List.get?_eq_getElem?, List.getElem?_map]
        rw [List.get?_eq_getElem?] at h
        rw [h]
        rfl
      rw [h']
      unfold spliceInsert
      rw [map_insertIdx f _ _ _ (Nat.min_le_right _ _)]
      rw [map_eraseIdx]
      have hlen : (l.eraseIdx j).length = ((l.map f).eraseIdx j).length := by
        rw [← map_eraseIdx, List.length_map]
      rw [hlen]

lemma spliceInsert_perm (l : List α) (k : Nat) (x : α) :
    List.Perm (spliceInsert l k x) (x :: l) := by
  unfold spliceInsert
  exact List.perm_insertIdx x l (Nat.min_le_right _ _)

lemma reorderArray_perm (l : List α) (j k : Nat) :
    List.Perm (reorderArray l j k) l := by
  unfold reorderArray
  cases h : l.get? j with
  | none => exact List.Perm.refl l
  | some x =>
      have hj : j < l.length := (List.get?_eq_some.mp h).1
      have hx : l[j] = x := by
        rw [List.get?_eq_getElem?, List.getElem?_eq_getElem hj] at h
        exact Option.some.inj h
      have h2 : l = l.take j ++ x :: l.drop (j + 1) := by
        conv_lhs => rw [← List.take_append_drop j l]
        rw [List.drop_eq_getElem_cons hj, hx]
      have h3 : List.Perm (x :: l.eraseIdx j) l := by
        rw [List.eraseIdx_eq_take_drop_succ]
        conv_rhs => rw [h2]
        exact List.perm_middle.symm
      exact (spliceInsert_perm _ k x).trans h3

lemma find?_eq_of_perm_of_unique {α : Type _} {p : α → Bool} {l l' : List α}
    (hperm : List.Perm l l')
    (huniq : ∀ a, a ∈ l' → ∀ b, b ∈ l' → p a = true → p b = true → a = b) :
    l.find? p = l'.find? p := by
  cases h1 : l.find? p with
  | none =>
      cases h2 : l'.find? p with
      | none => rfl
      | some b =>
          have hb : b ∈ l := hperm.symm.subset (List.mem_of_find?_eq_some h2)
          have := List.find?_eq_none.mp h1 b hb
          exact absurd (List.find?_some h2) (by simpa using this)
  | some a =>
      have ha : a ∈ l' := hperm.subset (List.mem_of_find?_eq_some h1)
      cases h2 : l'.find? p with
      | none =>
          have := List.find?_eq_none.mp h2 a ha
          exact absurd (List.find?_some h1) (by simpa using this)
      | some b =>
          have hb : b ∈ l' := List.mem_of_find?_eq_some h2
          rw [huniq a ha b hb (List.find?_some h1) (List.find?_some h2)]

lemma zip_key_unique {β : Type _} {l : List String} {r : List β} (hnd : l.Nodup) (key : String) :
    ∀ a, a ∈ l.zip r → ∀ b, b ∈ l.zip r →
      (a.1 == key) = true → (b.1 == key) = true → a = b := by
  intro a ha b hb hpa hpb
  obtain ⟨i, hi, hia⟩ := List.mem_iff_getElem.mp ha
  obtain ⟨j, hj, hjb⟩ := List.mem_iff_getElem.mp hb
  have hil : i < l.length := by rw [List.length_zip] at hi; omega
  have hir : i < r.length := by rw [List.length_zip] at hi; omega
  have hjl : j < l.length := by rw [List.length_zip] at hj; omega
  have hjr : j < r.length := by rw [List.length_zip] at hj; omega
  have hai : a = (l[i], r[i]) := by rw [← hia, List.getElem_zip]
  have hbj : b = (l[j], r[j]) := by rw [← hjb, List.getElem_zip]
  have e1 : a.1 = key := by simpa using hpa
  have e2 : b.1 = key := by simpa using hpb
  have hkey : l[i] = l[j] := by
    rw [hai] at e1
    rw [hbj] at e2
    simp only at e1 e2
    rw [e1, e2]
  have hij : i = j := (List.Nodup.getElem_inj_iff hnd).mp hkey
  subst hij
  rw [hai, hbj]

lemma find?_zip_map_snd {β γ : Type _} (key : String) (l : List String) (r : List β)
    (f : β → γ) (h : l.length = r.length) :
    (l.zip (r.map f)).find? (fun p => p.1 == key) =
      ((l.zip r).find? (fun p => p.1 == key)).map (fun p => (p.1, f p.2)) := by
  induction l generalizing r with
  | nil => simp
  | cons a as ih =>
      cases r with
      | nil => simp at h
      | cons b bs =>
          simp only [List.map_cons, List.zip_cons_cons]
          by_cases hpa : (a == key) = true
          · rw [List.find?_cons_of_pos _ (by simpa using hpa),
              List.find?_cons_of_pos _ (by simpa using hpa)]
            rfl
          · rw [List.find?_cons_of_neg _ (by simpa using hpa),
              List.find?_cons_of_neg _ (by simpa using hpa)]
            exact ih bs (by simpa using h)

/-- Claim C7: for a well-formed state with duplicate-free area names and item
names and valid drag source/destination indices, reordering an area (column)
or an item (row) moves the labels and the matrix together: the quantity found
for any item `x` and area `y` by name lookup is unchanged. -/
theorem reorder_preserves_name_lookup (s : InventoryState) (srcA dstA srcI dstI : Nat)
    (hwf : wf s) (hndA : s.areas.Nodup) (hndI : (s.items.map Item.name).Nodup)
    (_hA1 : srcA < s.areas.length) (_hA2 : dstA < s.areas.length)
    (_hI1 : srcI < s.items.length) (_hI2 : dstI < s.items.length)
    (x y : String) :
    qtyByName (dropArea s srcA dstA) x y = qtyByName s x y ∧
    qtyByName (dropItem s srcI dstI) x y = qtyByName s x y := by
  have hlen : (s.items.map Item.name).length = s.quantities.length := by
    rw [List.length_map, hwf.1]
  constructor
  · rw [dropArea]
    by_cases hds : dstA = srcA
    · rw [if_pos hds]
    · rw [if_neg hds]
      rw [qtyByName, qtyByName]
      dsimp only
      have houter : ((s.items.map Item.name).zip (reorderColumns s.quantities srcA dstA)).find?
          (fun p => p.1 == x) =
          (((s.items.map Item.name).zip s.quantities).find? (fun p => p.1 == x)).map
            (fun p => (p.1, reorderArray p.2 srcA dstA)) := by
        rw [reorderColumns]
        exact find?_zip_map_snd x _ _ _ hlen
      rw [houter]
      cases hf : ((s.items.map Item.name).zip s.quantities).find? (fun p => p.1 == x) with
      | none => rfl
      | some p =>
          obtain ⟨n₀, row⟩ := p
          have hrow : row ∈ s.quantities :=
            (List.of_mem_zip (List.mem_of_find?_eq_some hf)).2
          have hrlen : s.areas.length = row.length := (hwf.2 row hrow).symm
          dsimp only [Option.map]
          have hzip : (reorderArray s.areas srcA dstA).zip (reorderArray row srcA dstA) =
              reorderArray (s.areas.zip row) srcA dstA :=
            (reorderArray_zip s.areas row srcA dstA hrlen).symm
          rw [hzip]
          rw [find?_eq_of_perm_of_unique (reorderArray_perm (s.areas.zip row) srcA dstA)
            (zip_key_unique hndA y)]
  · rw [dropItem]
    by_cases hds : dstI = srcI
    · rw [if_pos hds]
    · rw [if_neg hds]
      rw [qtyByName, qtyByName]
      dsimp only
      have hmap : (reorderArray s.items srcI dstI).map Item.name =
          reorderArray (s.items.map Item.name) srcI dstI :=
        reorderArray_map Item.name s.items srcI dstI
      have hzip : (reorderArray (s.items.map Item.name) srcI dstI).zip
          (reorderArray s.quantities srcI dstI) =
          reorderArray ((s.items.map Item.name).zip s.quantities) srcI dstI :=
        (reorderArray_zip _ _ _ _ hlen).symm
      rw [hmap, hzip]
      rw [find?_eq_of_perm_of_unique
        (reorderArray_perm ((s.items.map Item.name).zip s.quantities) srcI dstI)
        (zip_key_unique hndI x)]

/-- A concrete run of `reorder_preserves_name_lookup`: after dragging area 0
to position 1 (or item 0 to position 1) in the Kitchen/Spa demo state, the
quantity looked up for ("Broom", "Spa") is the same as before the drag. -/
theorem reorder_preserves_name_lookup_witness :
    (wf ⟨["Kitchen", "Spa"], [⟨"Broom", 2⟩, ⟨"Towels", 10⟩], [[3, 5], [20, 40]]⟩ ∧
      (["Kitchen", "Spa"] : List String).Nodup ∧
      (([⟨"Broom", 2⟩, ⟨"Towels", 10⟩] : List Item).map Item.name).Nodup) ∧
    qtyByName (dropArea ⟨["Kitchen", "Spa"], [⟨"Broom", 2⟩, ⟨"Towels", 10⟩],
        [[3, 5], [20, 40]]⟩ 0 1) "Broom" "Spa" =
      qtyByName ⟨["Kitchen", "Spa"], [⟨"Broom", 2⟩, ⟨"Towels", 10⟩],
        [[3, 5], [20, 40]]⟩ "Broom" "Spa" ∧
    qtyByName (dropItem ⟨["Kitchen", "Spa"], [⟨"Broom", 2⟩, ⟨"Towels", 10⟩],
        [[3, 5], [20, 40]]⟩ 0 1) "Broom" "Spa" =
      qtyByName ⟨["Kitchen", "Spa"], [⟨"Broom", 2⟩, ⟨"Towels", 10⟩],
        [[3, 5], [20, 40]]⟩ "Broom" "Spa" := by
  have h := reorder_preserves_name_lookup
    ⟨["Kitchen", "Spa"], [⟨"Broom", 2⟩, ⟨"Towels", 10⟩], [[3, 5], [20, 40]]⟩ 0 1 0 1
    (by decide) (by decide) (by decide) (by decide) (by decide) (by decide) (by decide)
    "Broom" "Spa"
  exact ⟨⟨by decide, by decide, by decide⟩, h.1, h.2⟩

end Inventory
